import Mathlib

/-!
Shallow embedding of the ray-tracing worker sources
(`src/vec.rs`, `src/geom.rs`, `src/main.rs`).

Modelling conventions:
* `f32` values are modelled as exact real numbers (`ℝ`); IEEE-754 rounding
  is not modelled.  `sqrt`, `floor`, `ceil`, `fract` become their exact real
  counterparts.
* `usize` is modelled as `ℕ`; the saturating `f32 → usize` cast becomes
  `Int.toNat` of the floor (resp. ceil), which agrees with Rust for every
  in-range value.
* Panicking operations (slice indexing out of bounds, `Option::expect`) are
  modelled by total functions returning a default value; theorems below show
  the defaults are unreachable under the documented preconditions.
-/

/-- `Vec3` from `src/vec.rs`: a 3-component vector. -/
structure Vec3 where
  x : ℝ
  y : ℝ
  z : ℝ

instance : Inhabited Vec3 := ⟨⟨0, 0, 0⟩⟩

/-- `Vec3::dot` from `src/vec.rs`. -/
def Vec3.dot (a b : Vec3) : ℝ := a.x * b.x + a.y * b.y + a.z * b.z

/-- `Vec3::length` from `src/vec.rs`: √(dot v v). -/
noncomputable def Vec3.length (v : Vec3) : ℝ := Real.sqrt (v.dot v)

/-- `impl Add for Vec3` from `src/vec.rs`: componentwise addition. -/
instance : Add Vec3 := ⟨fun a b => ⟨a.x + b.x, a.y + b.y, a.z + b.z⟩⟩

/-- `impl Sub for Vec3` from `src/vec.rs`: componentwise subtraction. -/
instance : Sub Vec3 := ⟨fun a b => ⟨a.x - b.x, a.y - b.y, a.z - b.z⟩⟩

/-- `impl Mul<Vec3> for f32` from `src/vec.rs`: scalar multiplication. -/
instance : HMul ℝ Vec3 Vec3 := ⟨fun k v => ⟨k * v.x, k * v.y, k * v.z⟩⟩

@[simp] lemma Vec3.add_def (a b : Vec3) :
    a + b = ⟨a.x + b.x, a.y + b.y, a.z + b.z⟩ := rfl

@[simp] lemma Vec3.sub_def (a b : Vec3) :
    a - b = ⟨a.x - b.x, a.y - b.y, a.z - b.z⟩ := rfl

@[simp] lemma Vec3.smul_def (k : ℝ) (v : Vec3) :
    k * v = ⟨k * v.x, k * v.y, k * v.z⟩ := rfl

@[simp] lemma Vec3.dot_mk (a1 a2 a3 b1 b2 b3 : ℝ) :
    Vec3.dot ⟨a1, a2, a3⟩ ⟨b1, b2, b3⟩ = a1 * b1 + a2 * b2 + a3 * b3 := rfl

/-- `Sphere` from `src/geom.rs`. -/
structure Sphere where
  center : Vec3
  radius : ℝ

/-- `Ray` from `src/geom.rs`; `direction` should always be a unit vector. -/
structure Ray where
  origin : Vec3
  direction : Vec3

/-- `Intersection` from `src/geom.rs`. -/
structure Intersection where
  distance : ℝ
  position : Vec3
  normal : Vec3

/-- `Ray::intersect_sphere` from `src/geom.rs`. -/
noncomputable def Ray.intersect_sphere (self : Ray) (sphere : Sphere) :
    Option Intersection :=
  -- Vector from the beginning of the ray to the center of the sphere
  let offset := sphere.center - self.origin
  -- Project onto the ray direction
  let distance_along_ray := self.direction.dot offset
  -- Don't consider intersections "behind" the ray
  if distance_along_ray < 0 then none
  else
    let closest_point := self.origin + distance_along_ray * self.direction
    let ray_sphere_distance := (sphere.center - closest_point).length
    if ray_sphere_distance ≤ sphere.radius then
      let distance_into_sphere :=
        Real.sqrt (sphere.radius ^ 2 - ray_sphere_distance ^ 2)
      let distance := distance_along_ray - distance_into_sphere
      let position := self.origin + distance * self.direction
      let normal := (1 / sphere.radius) * (position - sphere.center)
      some ⟨distance, position, normal⟩
    else none

/-- `Ray::intersects_sphere` from `src/geom.rs`. -/
noncomputable def Ray.intersects_sphere (self : Ray) (sphere : Sphere) : Bool :=
  (self.intersect_sphere sphere).isSome

/-- The projection of the sphere-center offset onto the ray direction
(the local `distance_along_ray` of `Ray::intersect_sphere`). -/
def Ray.tClosest (self : Ray) (sphere : Sphere) : ℝ :=
  self.direction.dot (sphere.center - self.origin)

/-- The closest-approach distance from the sphere center to the ray
(the local `ray_sphere_distance` of `Ray::intersect_sphere`). -/
noncomputable def Ray.closestDist (self : Ray) (sphere : Sphere) : ℝ :=
  (sphere.center - (self.origin + self.tClosest sphere * self.direction)).length

lemma intersect_sphere_eq (r : Ray) (s : Sphere) :
    r.intersect_sphere s =
      if r.tClosest s < 0 then none
      else if r.closestDist s ≤ s.radius then
        some ⟨r.tClosest s - Real.sqrt (s.radius ^ 2 - r.closestDist s ^ 2),
          r.origin +
            (r.tClosest s - Real.sqrt (s.radius ^ 2 - r.closestDist s ^ 2)) *
              r.direction,
          (1 / s.radius) *
            (r.origin +
                (r.tClosest s - Real.sqrt (s.radius ^ 2 - r.closestDist s ^ 2)) *
                  r.direction -
              s.center)⟩
      else none := rfl

/-- **C1.** For a ray and a sphere, when the projection
`t_closest = dot(direction, center − origin)` is nonnegative and the
closest-approach distance `d` is at most the radius, `intersect_sphere`
returns a hit with `distance = t_closest − √(radius² − d²)`,
`position = origin + distance·direction` and
`normal = (position − center) / radius` (the source multiplies by
`1/radius`).  Arithmetic is modelled over exact reals. -/
theorem intersect_sphere_hit_formula (r : Ray) (s : Sphere)
    (hu : r.direction.dot r.direction = 1) (hr : 0 < s.radius)
    (ht : 0 ≤ r.tClosest s) (hd : r.closestDist s ≤ s.radius) :
    ∃ h, r.intersect_sphere s = some h ∧
      h.distance = r.tClosest s - Real.sqrt (s.radius ^ 2 - r.closestDist s ^ 2) ∧
      h.position = r.origin + h.distance * r.direction ∧
      h.normal = (1 / s.radius) * (h.position - s.center) := by
  rw [intersect_sphere_eq, if_neg (not_lt.mpr ht), if_pos hd]
  exact ⟨_, rfl, rfl, rfl, rfl⟩

/-- **C2.** `intersect_sphere` returns `None` iff the sphere center is behind
the ray (`t_closest < 0`) or the closest-approach distance strictly exceeds
the radius; a tangential ray (`d = radius`, center not behind) is a hit with
`distance = t_closest`. -/
theorem intersect_sphere_none_iff (r : Ray) (s : Sphere) :
    (r.intersect_sphere s = none ↔
      r.tClosest s < 0 ∨ s.radius < r.closestDist s) ∧
    (0 ≤ r.tClosest s → r.closestDist s = s.radius →
      ∃ h, r.intersect_sphere s = some h ∧ h.distance = r.tClosest s) := by
  constructor
  · rw [intersect_sphere_eq]
    split_ifs with h1 h2
    · simp [h1]
    · simp [h1, not_lt.mp h1, not_lt.mpr h2]
    · simp [h1, not_le.mp h2]
  · intro ht hd
    rw [intersect_sphere_eq, if_neg (not_lt.mpr ht), if_pos hd.le]
    exact ⟨_, rfl, by rw [hd, sub_self, Real.sqrt_zero, sub_zero]⟩

lemma Vec3.dot_self_nonneg (v : Vec3) : 0 ≤ v.dot v := by
  have hx := mul_self_nonneg v.x
  have hy := mul_self_nonneg v.y
  have hz := mul_self_nonneg v.z
  simp only [Vec3.dot]
  linarith

/-- The squared closest-approach distance in terms of the offset and the
projection, for a unit direction. -/
lemma closestDist_sq (r : Ray) (s : Sphere)
    (hu : r.direction.dot r.direction = 1) :
    r.closestDist s ^ 2 =
      (s.center - r.origin).dot (s.center - r.origin) - r.tClosest s ^ 2 := by
  obtain ⟨⟨px, py, pz⟩, ⟨dx, dy, dz⟩⟩ := r
  obtain ⟨⟨cx, cy, cz⟩, rad⟩ := s
  rw [Ray.closestDist, Vec3.length, Real.sq_sqrt (Vec3.dot_self_nonneg _)]
  simp only [Ray.tClosest, Vec3.sub_def, Vec3.add_def, Vec3.smul_def,
    Vec3.dot] at hu ⊢
  linear_combination (dx * (cx - px) + dy * (cy - py) + dz * (cz - pz)) ^ 2 * hu

/-- **C6 (amended).** If the ray has unit direction, the radius is positive
and the ray origin is not strictly inside the sphere, then any returned
intersection has a nonnegative distance.  (The unamended claim fails when
the origin is strictly inside the sphere; see the counterexample.) -/
theorem intersect_distance_nonneg (r : Ray) (s : Sphere)
    (hu : r.direction.dot r.direction = 1) (hr : 0 < s.radius)
    (ho : s.radius ≤ (s.center - r.origin).length) :
    ∀ h, r.intersect_sphere s = some h → 0 ≤ h.distance := by
  intro h hh
  rw [intersect_sphere_eq] at hh
  by_cases h1 : r.tClosest s < 0
  · rw [if_pos h1] at hh
    exact Option.noConfusion hh
  · rw [if_neg h1] at hh
    by_cases h2 : r.closestDist s ≤ s.radius
    · rw [if_pos h2] at hh
      injection hh with hh
      subst hh
      have ht : 0 ≤ r.tClosest s := not_lt.mp h1
      rw [Vec3.length] at ho
      have hO := (Real.le_sqrt hr.le (Vec3.dot_self_nonneg _)).mp ho
      have hkey : s.radius ^ 2 - r.closestDist s ^ 2 ≤ r.tClosest s ^ 2 := by
        rw [closestDist_sq r s hu]
        linarith
      have hs : Real.sqrt (s.radius ^ 2 - r.closestDist s ^ 2) ≤ r.tClosest s :=
        calc Real.sqrt (s.radius ^ 2 - r.closestDist s ^ 2) ≤
            Real.sqrt (r.tClosest s ^ 2) := Real.sqrt_le_sqrt hkey
          _ = r.tClosest s := Real.sqrt_sq ht
      exact sub_nonneg.mpr hs
    · rw [if_neg h2] at hh
      exact Option.noConfusion hh

/-- The ray of the repository's `simple_intersection` test. -/
noncomputable def rayA : Ray := ⟨⟨0, 0, -2⟩, ⟨0, 0, 1⟩⟩

/-- The sphere of the repository's `simple_intersection` test. -/
noncomputable def sphereA : Sphere := ⟨⟨0, 0, 0⟩, 1 / 2⟩

/-- The intersection of `rayA` with `sphereA`. -/
noncomputable def interA : Intersection :=
  ⟨3 / 2, ⟨0, 0, -(1 / 2)⟩, ⟨0, 0, -1⟩⟩

/-- A sphere touching the ray `rayA` tangentially. -/
noncomputable def sphereT : Sphere := ⟨⟨1 / 2, 0, 0⟩, 1 / 2⟩

/-- A ray starting at the center of `sphereA`. -/
noncomputable def rayIn : Ray := ⟨⟨0, 0, 0⟩, ⟨0, 0, 1⟩⟩

lemma tClosest_A : rayA.tClosest sphereA = 2 := by
  norm_num [Ray.tClosest, rayA, sphereA, Vec3.dot]

lemma closestDist_A : rayA.closestDist sphereA = 0 := by
  simp only [Ray.closestDist, tClosest_A]
  norm_num [rayA, sphereA, Vec3.length, Vec3.dot, Real.sqrt_zero]

lemma sqrt_rad_A : Real.sqrt (sphereA.radius ^ 2 - (0 : ℝ) ^ 2) = 1 / 2 := by
  rw [show sphereA.radius ^ 2 - (0 : ℝ) ^ 2 = (1 / 2 : ℝ) ^ 2 by
    norm_num [sphereA]]
  exact Real.sqrt_sq (by norm_num)

lemma intersectA : rayA.intersect_sphere sphereA = some interA := by
  rw [intersect_sphere_eq, tClosest_A, closestDist_A, sqrt_rad_A,
    if_neg (by norm_num), if_pos (by norm_num [sphereA])]
  norm_num [rayA, sphereA, interA]

lemma length_offset_A : (sphereA.center - rayA.origin).length = 2 := by
  rw [show sphereA.center - rayA.origin = (⟨0, 0, 2⟩ : Vec3) by
    norm_num [rayA, sphereA]]
  rw [Vec3.length, show Vec3.dot ⟨0, 0, 2⟩ ⟨0, 0, 2⟩ = (2 : ℝ) ^ 2 by
    norm_num [Vec3.dot]]
  exact Real.sqrt_sq (by norm_num)

/-- Witness for C1 at the ray and sphere of the `simple_intersection` test. -/
theorem intersect_sphere_hit_formula_witness :
    ∃ h, rayA.intersect_sphere sphereA = some h ∧
      h.distance = rayA.tClosest sphereA -
        Real.sqrt (sphereA.radius ^ 2 - rayA.closestDist sphereA ^ 2) ∧
      h.position = rayA.origin + h.distance * rayA.direction ∧
      h.normal = (1 / sphereA.radius) * (h.position - sphereA.center) :=
  intersect_sphere_hit_formula rayA sphereA (by norm_num [rayA, Vec3.dot])
    (by norm_num [sphereA]) (by rw [tClosest_A]; norm_num)
    (by rw [closestDist_A]; norm_num [sphereA])

lemma tClosest_T : rayA.tClosest sphereT = 2 := by
  norm_num [Ray.tClosest, rayA, sphereT, Vec3.dot]

lemma closestDist_T : rayA.closestDist sphereT = 1 / 2 := by
  simp only [Ray.closestDist, tClosest_T]
  rw [show sphereT.center - (rayA.origin + (2 : ℝ) * rayA.direction) =
      (⟨1 / 2, 0, 0⟩ : Vec3) by norm_num [rayA, sphereT]]
  rw [Vec3.length, show Vec3.dot ⟨1 / 2, 0, 0⟩ ⟨1 / 2, 0, 0⟩ = (1 / 2 : ℝ) ^ 2 by
    norm_num [Vec3.dot]]
  exact Real.sqrt_sq (by norm_num)

/-- Witness for C2: the tangential sphere `sphereT` is hit by `rayA` at
distance `t_closest`. -/
theorem intersect_sphere_none_iff_witness :
    ∃ h, rayA.intersect_sphere sphereT = some h ∧
      h.distance = rayA.tClosest sphereT :=
  (intersect_sphere_none_iff rayA sphereT).2
    (by rw [tClosest_T]; norm_num)
    (by rw [closestDist_T, show sphereT.radius = 1 / 2 by norm_num [sphereT]])

lemma tClosest_In : rayIn.tClosest sphereA = 0 := by
  norm_num [Ray.tClosest, rayIn, sphereA, Vec3.dot]

lemma closestDist_In : rayIn.closestDist sphereA = 0 := by
  simp only [Ray.closestDist, tClosest_In]
  norm_num [rayIn, sphereA, Vec3.length, Vec3.dot, Real.sqrt_zero]

/-- **C6 counterexample.** `rayIn` has unit direction and starts at the center
of `sphereA` (radius `1/2 > 0`); `intersect_sphere` returns a hit whose
distance is `−1/2 < 0`, refuting the claim that every returned distance is
nonnegative. -/
theorem intersect_distance_neg_cex :
    rayIn.direction.dot rayIn.direction = 1 ∧ 0 < sphereA.radius ∧
    ∃ h, rayIn.intersect_sphere sphereA = some h ∧
      h.distance = -(1 / 2) ∧ h.distance < 0 := by
  refine ⟨by norm_num [rayIn, Vec3.dot], by norm_num [sphereA], ?_⟩
  rw [intersect_sphere_eq, tClosest_In, closestDist_In, sqrt_rad_A,
    if_neg (by norm_num), if_pos (by norm_num [sphereA])]
  exact ⟨_, rfl, by norm_num, by norm_num⟩

/-- Witness for the amended C6 at the `simple_intersection` example, whose
origin lies outside the sphere. -/
theorem intersect_distance_nonneg_witness :
    ∃ h, rayA.intersect_sphere sphereA = some h ∧ 0 ≤ h.distance :=
  ⟨interA, intersectA,
    intersect_distance_nonneg rayA sphereA (by norm_num [rayA, Vec3.dot])
      (by norm_num [sphereA])
      (by rw [length_offset_A]; norm_num [sphereA]) interA intersectA⟩

/-- `Scene` from `src/main.rs`. -/
structure Scene where
  frame : ℕ
  spheres : List Sphere

/-- `Outcome` from `src/main.rs`. -/
structure Outcome where
  hit : Bool
  color : Option Vec3

/-- The CLI options of `struct Opt` in `src/main.rs` that `compute_result`
reads; the address and worker name are irrelevant to the shader and omitted. -/
structure Opt where
  fg : List Vec3
  bg : Vec3

/-- `LIGHT_DIRECTION` from `src/main.rs`. -/
noncomputable def LIGHT_DIRECTION : Vec3 := ⟨-4 / 9, 8 / 9, 1 / 9⟩

/-- Modelled from the spec: `Vec3::reflection` is called by `compute_result`
(`src/main.rs`) but its definition is missing from the provided sources;
spec §4.1 defines the mirror reflection as `d − 2·dot(d, n)·n`. -/
noncomputable def Vec3.reflection (d n : Vec3) : Vec3 :=
  d - (2 * d.dot n) * n

/-- The list of per-sphere intersections built inside `compute_result`
(`src/main.rs`): `enumerate` then `filter_map` with `intersect_sphere`. -/
noncomputable def hitsList (ray : Ray) (scene : Scene) :
    List (ℕ × Intersection) :=
  scene.spheres.enum.filterMap fun is =>
    (ray.intersect_sphere is.2).map fun inter => (is.1, inter)

/-- The accumulator step of `min_by_key` on the intersection distance.
Rust's `min_by_key` keeps the earlier element among equal minima, so the
accumulator is replaced only on a strictly smaller key. -/
noncomputable def minStep (acc : Option (ℕ × Intersection))
    (p : ℕ × Intersection) : Option (ℕ × Intersection) :=
  match acc with
  | none => some p
  | some q => if p.2.distance < q.2.distance then some p else some q

/-- The closest-hit selection of `compute_result` (`src/main.rs`).  Over
exact reals a distance is never NaN, so the `NotNan` conversion and its
`expect` are not modelled. -/
noncomputable def closestHit (ray : Ray) (scene : Scene) :
    Option (ℕ × Intersection) :=
  (hitsList ray scene).foldl minStep none

/-- The gradient position computed in `compute_result` (`src/main.rs`):
`(index * (opt.fg.len() - 1)) as f32 / scene.spheres.len() as f32`, with
truncated (`usize`) subtraction. -/
noncomputable def gradientVal (index fgLen numSpheres : ℕ) : ℝ :=
  ((index * (fgLen - 1) : ℕ) : ℝ) / (numSpheres : ℝ)

/-- Rust `f32::fract`: `self − self.trunc()`, `trunc` rounding toward zero. -/
noncomputable def fract (x : ℝ) : ℝ :=
  x - (if 0 ≤ x then (⌊x⌋ : ℝ) else (⌈x⌉ : ℝ))

/-- `compute_result` from `src/main.rs`.  The `f32 → usize` casts of
`gradient.floor()` and `gradient.ceil()` saturate below at 0 (`Int.toNat`);
the panicking slice indexing and the `expect("Color to be returned")` are
modelled by `getD` with a default shown unreachable by the theorems below. -/
noncomputable def compute_result (ray : Ray) (scene : Scene) (opt : Opt)
    (bounces : ℕ) : Outcome :=
  match closestHit ray scene with
  | some (index, intersection) =>
    let gradient := gradientVal index opt.fg.length scene.spheres.length
    let fg1 := opt.fg.getD ⌊gradient⌋.toNat default
    let fg2 := opt.fg.getD ⌈gradient⌉.toNat default
    let f := fract gradient
    let lightness := -(LIGHT_DIRECTION.dot intersection.normal)
    let diffuse_color := (1 - f) * fg1 + f * fg2
    let combined_color :=
      if _hb : 0 < bounces then
        let reflectivity :=
          (1 - intersection.normal.dot ray.direction ^ 2) * 0.7
        let reflected_direction := ray.direction.reflection intersection.normal
        let EPSILON : ℝ := 1e-6
        let reflected_color :=
          (compute_result
            ⟨intersection.position + EPSILON * reflected_direction,
              reflected_direction⟩
            scene opt (bounces - 1)).color.getD default
        (1 - reflectivity) * diffuse_color + reflectivity * reflected_color
      else diffuse_color
    ⟨true, some (combined_color + ⟨lightness, lightness, lightness⟩)⟩
  | none => ⟨false, some opt.bg⟩
termination_by bounces
decreasing_by simp_wf; omega

/-- **C9.** When the closest-hit selection misses, `compute_result` returns
`hit = false` and the background color, for every bounce budget. -/
theorem compute_result_miss (ray : Ray) (scene : Scene) (opt : Opt)
    (bounces : ℕ) (h : closestHit ray scene = none) :
    compute_result ray scene opt bounces = ⟨false, some opt.bg⟩ := by
  rw [compute_result, h]

/-- Witness for C9: a scene with no spheres yields the background color. -/
theorem compute_result_miss_witness :
    compute_result rayA ⟨0, []⟩ ⟨[⟨1, 1, 1⟩], ⟨0, 0, 0⟩⟩ 1 =
      ⟨false, some ⟨0, 0, 0⟩⟩ :=
  compute_result_miss rayA ⟨0, []⟩ ⟨[⟨1, 1, 1⟩], ⟨0, 0, 0⟩⟩ 1 rfl

/-- **C8.** `compute_result` is total (its Lean model is a terminating
recursion on the bounce budget) and always returns `color = some …`; in
particular the recursive call's color is never `None`, so the modelled
`expect` default is unreachable. -/
theorem compute_result_total (ray : Ray) (scene : Scene) (opt : Opt)
    (bounces : ℕ) :
    ∃ c, (compute_result ray scene opt bounces).color = some c := by
  rw [compute_result]
  rcases hch : closestHit ray scene with _ | ⟨i, inter⟩
  · exact ⟨opt.bg, rfl⟩
  · simp only [hch]
    exact ⟨_, rfl⟩

lemma minStep_some (q p : ℕ × Intersection) :
    minStep (some q) p =
      if p.2.distance < q.2.distance then some p else some q := rfl

/-- Invariant of the `min_by_key` fold: starting from an accumulator whose
index precedes every index in the list, the fold returns an element of
minimal distance, preferring the earliest among equal minima. -/
lemma foldl_minStep_spec (l : List (ℕ × Intersection)) :
    ∀ q : ℕ × Intersection, (∀ p ∈ l, q.1 < p.1) →
      l.Pairwise (fun a b => a.1 < b.1) →
      ∃ r, l.foldl minStep (some q) = some r ∧
        (r = q ∨ (r ∈ l ∧ r.2.distance < q.2.distance)) ∧
        (∀ p ∈ l, r.2.distance ≤ p.2.distance) ∧
        (∀ p ∈ l, p.2.distance = r.2.distance → r.1 ≤ p.1) := by
  induction l with
  | nil =>
    intro q _ _
    exact ⟨q, rfl, Or.inl rfl, by simp, by simp⟩
  | cons p t ih =>
    intro q hlt hpw
    obtain ⟨hhead, htail⟩ := List.pairwise_cons.mp hpw
    rw [List.foldl_cons, minStep_some]
    by_cases hpq : p.2.distance < q.2.distance
    · rw [if_pos hpq]
      obtain ⟨r, hr, hcases, hmin, htie⟩ := ih p hhead htail
      refine ⟨r, hr, ?_, ?_, ?_⟩
      · rcases hcases with rfl | ⟨hmem, hlt'⟩
        · exact Or.inr ⟨List.mem_cons_self _ _, hpq⟩
        · exact Or.inr ⟨List.mem_cons_of_mem _ hmem, hlt'.trans hpq⟩
      · intro x hx
        rcases List.mem_cons.mp hx with rfl | hx'
        · rcases hcases with rfl | ⟨_, hlt'⟩
          · exact le_refl _
          · exact hlt'.le
        · exact hmin x hx'
      · intro x hx hxd
        rcases List.mem_cons.mp hx with rfl | hx'
        · rcases hcases with rfl | ⟨_, hlt'⟩
          · exact le_refl _
          · exact absurd hxd (by rw [eq_comm]; exact hlt'.ne)
        · exact htie x hx' hxd
    · rw [if_neg hpq]
      have hq : q.2.distance ≤ p.2.distance := not_lt.mp hpq
      obtain ⟨r, hr, hcases, hmin, htie⟩ :=
        ih q (fun x hx => hlt x (List.mem_cons_of_mem _ hx)) htail
      refine ⟨r, hr, ?_, ?_, ?_⟩
      · rcases hcases with rfl | ⟨hmem, hlt'⟩
        · exact Or.inl rfl
        · exact Or.inr ⟨List.mem_cons_of_mem _ hmem, hlt'⟩
      · intro x hx
        rcases List.mem_cons.mp hx with rfl | hx'
        · rcases hcases with rfl | ⟨_, hlt'⟩
          · exact hq
          · exact hlt'.le.trans hq
        · exact hmin x hx'
      · intro x hx hxd
        rcases List.mem_cons.mp hx with rfl | hx'
        · rcases hcases with rfl | ⟨_, hlt'⟩
          · exact (hlt x (List.mem_cons_self _ _)).le
          · exact absurd hxd (by rw [eq_comm]; exact (hlt'.trans_le hq).ne)
        · exact htie x hx' hxd

lemma le_fst_of_mem_enumFrom {α : Type _} {p : ℕ × α} {n : ℕ} {l : List α}
    (hp : p ∈ l.enumFrom n) : n ≤ p.1 := by
  obtain ⟨i, x⟩ := p
  exact (List.mk_mem_enumFrom_iff_le_and_get?_sub.mp hp).1

lemma enumFrom_pairwise {α : Type _} (l : List α) :
    ∀ n, (l.enumFrom n).Pairwise fun a b => a.1 < b.1 := by
  induction l with
  | nil => intro n; simp
  | cons x t ih =>
    intro n
    rw [List.enumFrom_cons]
    refine List.pairwise_cons.mpr ⟨?_, ih (n + 1)⟩
    intro p hp
    have := le_fst_of_mem_enumFrom hp
    omega

lemma hitsList_pairwise (ray : Ray) (scene : Scene) :
    (hitsList ray scene).Pairwise fun a b => a.1 < b.1 := by
  rw [hitsList]
  refine List.pairwise_filterMap.mpr ?_
  refine List.Pairwise.imp ?_ (enumFrom_pairwise scene.spheres 0)
  intro a b hab x hx y hy
  rw [Option.mem_def, Option.map_eq_some'] at hx hy
  obtain ⟨_, _, rfl⟩ := hx
  obtain ⟨_, _, rfl⟩ := hy
  exact hab

lemma mem_hitsList (ray : Ray) (scene : Scene) (i : ℕ) (h : Intersection) :
    (i, h) ∈ hitsList ray scene ↔
      ∃ s, scene.spheres.get? i = some s ∧ ray.intersect_sphere s = some h := by
  rw [hitsList, List.mem_filterMap]
  constructor
  · rintro ⟨⟨j, s⟩, hjs, hf⟩
    rw [Option.map_eq_some'] at hf
    obtain ⟨x, hx, hxe⟩ := hf
    have hj : j = i := congrArg Prod.fst hxe
    have hxh : x = h := congrArg Prod.snd hxe
    subst hj
    subst hxh
    exact ⟨s, List.mk_mem_enum_iff_get?.mp hjs, hx⟩
  · rintro ⟨s, hs, hint⟩
    refine ⟨(i, s), List.mk_mem_enum_iff_get?.mpr hs, ?_⟩
    rw [hint]
    rfl

/-- **C3.** The closest-hit selection returns a pair `(i, h)` where `h` is the
intersection of the ray with sphere number `i`, `h.distance` is minimal among
all intersected spheres, and equal minimal distances select the lower index;
it returns `None` exactly when no sphere intersects the ray. -/
theorem closest_hit_spec (ray : Ray) (scene : Scene) :
    (∀ i h, closestHit ray scene = some (i, h) →
      (∃ s, scene.spheres.get? i = some s ∧
        ray.intersect_sphere s = some h) ∧
      ∀ j s' h', scene.spheres.get? j = some s' →
        ray.intersect_sphere s' = some h' →
        h.distance ≤ h'.distance ∧ (h'.distance = h.distance → i ≤ j)) ∧
    (closestHit ray scene = none ↔
      ∀ j s', scene.spheres.get? j = some s' →
        ray.intersect_sphere s' = none) := by
  rcases hl : hitsList ray scene with _ | ⟨p, t⟩
  · have hnone : closestHit ray scene = none := by
      rw [closestHit, hl]
      rfl
    refine ⟨fun i h hch => absurd (hnone ▸ hch) (by simp), ?_⟩
    rw [hnone]
    simp only [true_iff]
    intro j s' hj
    have hmem : (j, s') ∈ scene.spheres.enum :=
      List.mk_mem_enum_iff_get?.mpr hj
    have hf := List.forall_none_of_filterMap_eq_nil hl (j, s') hmem
    exact Option.map_eq_none'.mp hf
  · have hpw := hitsList_pairwise ray scene
    rw [hl] at hpw
    obtain ⟨hhead, htail⟩ := List.pairwise_cons.mp hpw
    obtain ⟨r, hr, hcases, hmin, htie⟩ := foldl_minStep_spec t p hhead htail
    have hch : closestHit ray scene = some r := by
      rw [closestHit, hl, List.foldl_cons]
      exact hr
    have hrmem : r ∈ p :: t := by
      rcases hcases with rfl | ⟨hm, _⟩
      · exact List.mem_cons_self _ _
      · exact List.mem_cons_of_mem _ hm
    have hminAll : ∀ x ∈ p :: t, r.2.distance ≤ x.2.distance := by
      intro x hx
      rcases List.mem_cons.mp hx with rfl | hx'
      · rcases hcases with rfl | ⟨_, hlt'⟩
        · exact le_refl _
        · exact hlt'.le
      · exact hmin x hx'
    have htieAll : ∀ x ∈ p :: t, x.2.distance = r.2.distance → r.1 ≤ x.1 := by
      intro x hx hxd
      rcases List.mem_cons.mp hx with rfl | hx'
      · rcases hcases with rfl | ⟨_, hlt'⟩
        · exact le_refl _
        · exact absurd hxd.symm hlt'.ne
      · exact htie x hx' hxd
    constructor
    · intro i h hch'
      rw [hch] at hch'
      injection hch' with hch'
      subst hch'
      refine ⟨(mem_hitsList ray scene i h).mp (by rw [hl]; exact hrmem), ?_⟩
      intro j s' h' hj hint
      have hmem : ((j, h') : ℕ × Intersection) ∈ p :: t := by
        rw [← hl]
        exact (mem_hitsList ray scene j h').mpr ⟨s', hj, hint⟩
      exact ⟨hminAll (j, h') hmem, fun he => htieAll (j, h') hmem he⟩
    · rw [hch]
      constructor
      · intro habs
        exact Option.noConfusion habs
      · intro hall
        obtain ⟨s, hs, hint⟩ :=
          (mem_hitsList ray scene r.1 r.2).mp (by rw [hl]; exact hrmem)
        rw [hall r.1 s hs] at hint
        exact Option.noConfusion hint

/-- The one-sphere scene used for witnesses. -/
noncomputable def sceneA : Scene := ⟨0, [sphereA]⟩

lemma hitsList_A : hitsList rayA sceneA = [(0, interA)] := by
  rw [hitsList, show sceneA.spheres.enum = [(0, sphereA)] from rfl]
  simp [List.filterMap_cons, intersectA]

lemma closestHit_A : closestHit rayA sceneA = some (0, interA) := by
  rw [closestHit, hitsList_A]
  rfl

/-- Witness for C3 at the one-sphere scene `sceneA`: sphere 0 is selected
with its computed intersection, and that hit is minimal. -/
theorem closest_hit_spec_witness :
    (∃ s, sceneA.spheres.get? 0 = some s ∧
      rayA.intersect_sphere s = some interA) ∧
    ∀ j s' h', sceneA.spheres.get? j = some s' →
      rayA.intersect_sphere s' = some h' →
      interA.distance ≤ h'.distance ∧
        (h'.distance = interA.distance → 0 ≤ j) :=
  (closest_hit_spec rayA sceneA).1 0 interA closestHit_A

/-- **C4.** With bounce budget 0 and closest hit `(i, h)`, `compute_result`
returns `hit = true` and color `diffuse + (ℓ,ℓ,ℓ)` with no reflection term,
where `g = i·(P−1)/N` in floats, `diffuse` interpolates the palette entries
at `⌊g⌋` and `⌈g⌉` by `fract g`, and `ℓ = −dot(LIGHT_DIRECTION, h.normal)`
with no clamping. -/
theorem compute_result_zero_bounces (ray : Ray) (scene : Scene) (opt : Opt)
    (i : ℕ) (h : Intersection) (hP : 1 ≤ opt.fg.length)
    (hch : closestHit ray scene = some (i, h)) :
    compute_result ray scene opt 0 =
      ⟨true, some
        ((1 - fract (gradientVal i opt.fg.length scene.spheres.length)) *
            opt.fg.getD
              ⌊gradientVal i opt.fg.length scene.spheres.length⌋.toNat
              default +
          fract (gradientVal i opt.fg.length scene.spheres.length) *
            opt.fg.getD
              ⌈gradientVal i opt.fg.length scene.spheres.length⌉.toNat
              default +
          ⟨-(LIGHT_DIRECTION.dot h.normal), -(LIGHT_DIRECTION.dot h.normal),
            -(LIGHT_DIRECTION.dot h.normal)⟩)⟩ := by
  rw [compute_result, hch]
  rfl

/-- The palette and background used for shader witnesses (the CLI defaults). -/
noncomputable def optA : Opt := ⟨[⟨1, 1, 1⟩], ⟨0, 0, 0⟩⟩

/-- Witness for C4: shading `rayA` against the one-sphere scene with the
default palette at bounce budget 0. -/
theorem compute_result_zero_bounces_witness :
    compute_result rayA sceneA optA 0 =
      ⟨true, some
        ((1 - fract (gradientVal 0 optA.fg.length sceneA.spheres.length)) *
            optA.fg.getD
              ⌊gradientVal 0 optA.fg.length sceneA.spheres.length⌋.toNat
              default +
          fract (gradientVal 0 optA.fg.length sceneA.spheres.length) *
            optA.fg.getD
              ⌈gradientVal 0 optA.fg.length sceneA.spheres.length⌉.toNat
              default +
          ⟨-(LIGHT_DIRECTION.dot interA.normal),
            -(LIGHT_DIRECTION.dot interA.normal),
            -(LIGHT_DIRECTION.dot interA.normal)⟩)⟩ :=
  compute_result_zero_bounces rayA sceneA optA 0 interA
    (by norm_num [optA]) closestHit_A

lemma gradientVal_bounds (i P N : ℕ) (hP : 1 ≤ P) (hiN : i < N) :
    0 ≤ gradientVal i P N ∧ gradientVal i P N ≤ (P : ℝ) - 1 ∧
    ⌈gradientVal i P N⌉.toNat ≤ P - 1 := by
  have hN : (0 : ℝ) < (N : ℝ) := by
    have : 0 < N := lt_of_le_of_lt (Nat.zero_le i) hiN
    exact_mod_cast this
  have h0 : 0 ≤ gradientVal i P N := by
    rw [gradientVal]
    positivity
  have hle : gradientVal i P N ≤ (P : ℝ) - 1 := by
    rw [gradientVal, div_le_iff hN]
    have hi : (i : ℝ) ≤ (N : ℝ) := by
      have := hiN.le
      exact_mod_cast this
    have hP1 : (0 : ℝ) ≤ (P : ℝ) - 1 := by
      have : (1 : ℝ) ≤ (P : ℝ) := by exact_mod_cast hP
      linarith
    push_cast [Nat.cast_sub hP]
    nlinarith
  refine ⟨h0, hle, ?_⟩
  have hceil : ⌈gradientVal i P N⌉ ≤ ((P - 1 : ℕ) : ℤ) := by
    apply Int.ceil_le.mpr
    push_cast [Nat.cast_sub hP]
    exact hle
  exact Int.toNat_le.mpr hceil

/-- **C7.** For palette length `P ≥ 1` and hit index `i < N`, the gradient
position `g = i·(P−1)/N` lies in `[0, P−1]`, and both palette indices
`⌊g⌋` and `⌈g⌉` (as saturating `usize` casts) are strictly below `P`, so the
palette accesses of the hit branch are in bounds; with `P ≥ 1` the `usize`
subtraction `P − 1` does not underflow. -/
theorem gradient_indices_in_bounds (i P N : ℕ) (hP : 1 ≤ P) (hiN : i < N) :
    0 ≤ gradientVal i P N ∧ gradientVal i P N ≤ (P : ℝ) - 1 ∧
    ⌊gradientVal i P N⌋.toNat < P ∧ ⌈gradientVal i P N⌉.toNat < P := by
  obtain ⟨h0, hle, hceil⟩ := gradientVal_bounds i P N hP hiN
  have hfc : ⌊gradientVal i P N⌋.toNat ≤ ⌈gradientVal i P N⌉.toNat :=
    Int.toNat_le_toNat (Int.floor_le_ceil _)
  exact ⟨h0, hle, by omega, by omega⟩

/-- Witness for C7 at `i = 0`, `P = 1`, `N = 1`. -/
theorem gradient_indices_in_bounds_witness :
    0 ≤ gradientVal 0 1 1 ∧ gradientVal 0 1 1 ≤ ((1 : ℕ) : ℝ) - 1 ∧
    ⌊gradientVal 0 1 1⌋.toNat < 1 ∧ ⌈gradientVal 0 1 1⌉.toNat < 1 :=
  gradient_indices_in_bounds 0 1 1 (le_refl 1) Nat.zero_lt_one

/-- **C5 counterexample.** With `N = 2` spheres and palette length `P = 2`,
the last sphere index `i = N − 1 = 1` yields gradient position
`1·(2−1)/2 = 1/2`, which is not `P − 1 = 1`: the claim that `g` equals
`P − 1` exactly at `i = N − 1` is false (and the source performs no
clamping of the palette indices). -/
theorem gradient_boundary_cex :
    gradientVal (2 - 1) 2 2 = 1 / 2 ∧ gradientVal (2 - 1) 2 2 ≠ (2 : ℝ) - 1 := by
  constructor
  · rw [gradientVal]
    norm_num
  · rw [gradientVal]
    norm_num

/-- **C5 (amended).** For `N ≥ 1` and `P ≥ 1`, at the last sphere index
`i = N − 1` the gradient position is `(N−1)(P−1)/N`, which lies in
`[0, P−1]`; hence `⌈g⌉` is at most `P − 1` — a valid palette index — with no
clamping required (and the implementation performs none). -/
theorem gradient_boundary_amended (P N : ℕ) (hP : 1 ≤ P) (hN : 1 ≤ N) :
    gradientVal (N - 1) P N = (((N - 1) * (P - 1) : ℕ) : ℝ) / (N : ℝ) ∧
    0 ≤ gradientVal (N - 1) P N ∧
    gradientVal (N - 1) P N ≤ (P : ℝ) - 1 ∧
    ⌈gradientVal (N - 1) P N⌉.toNat ≤ P - 1 := by
  obtain ⟨h0, hle, hceil⟩ :=
    gradientVal_bounds (N - 1) P N hP (by omega)
  exact ⟨rfl, h0, hle, hceil⟩

/-- Witness for the amended C5 at `P = 2`, `N = 2`. -/
theorem gradient_boundary_amended_witness :
    gradientVal (2 - 1) 2 2 = (((2 - 1) * (2 - 1) : ℕ) : ℝ) / (2 : ℝ) ∧
    0 ≤ gradientVal (2 - 1) 2 2 ∧
    gradientVal (2 - 1) 2 2 ≤ (2 : ℝ) - 1 ∧
    ⌈gradientVal (2 - 1) 2 2⌉.toNat ≤ 2 - 1 :=
  gradient_boundary_amended 2 2 (by omega) (by omega)

/-- `ParseVecError` from `src/vec.rs`; the `ParseFloatError` payload of
`InvalidComponent` is not modelled. -/
inductive ParseVecError where
  | WrongNumberOfComponents
  | InvalidComponent
deriving DecidableEq

/-- The value of a parsed `f32` literal: an exact decimal value, an
infinity, or NaN.  (Rust rounds the decimal to the nearest `f32`; the model
keeps the exact rational.) -/
inductive FVal where
  | finite (q : ℚ)
  | inf (neg : Bool)
  | nan
deriving DecidableEq

/-- Rust `str::split(',')` on the character list of a string: split at every
separator, keeping empty pieces. -/
def splitComma : List Char → List (List Char)
  | [] => [[]]
  | c :: t =>
    if c = ',' then [] :: splitComma t
    else
      match splitComma t with
      | [] => [[c]]
      | h :: r => (c :: h) :: r

/-- Strip at most one leading sign; `true` means a minus was present. -/
def stripSign : List Char → Bool × List Char
  | '+' :: t => (false, t)
  | '-' :: t => (true, t)
  | l => (false, l)

/-- The numeric value of a digit string, as an exact rational. -/
def digitsVal (l : List Char) : ℚ :=
  l.foldl (fun acc c => 10 * acc + ((c.toNat - 48 : ℕ) : ℚ)) 0

/-- The numeric value of a digit string, as a natural number. -/
def digitsValN (l : List Char) : ℕ :=
  l.foldl (fun acc c => 10 * acc + (c.toNat - 48)) 0

/-- Split a character list at the first character satisfying `p`. -/
def splitAtFirst (p : Char → Bool) : List Char → List Char × Option (List Char)
  | [] => ([], none)
  | c :: t =>
    if p c then ([], some t)
    else
      let r := splitAtFirst p t
      (c :: r.1, r.2)

/-- The mantissa of a Rust float literal:
`Digit+ | Digit+ '.' Digit* | Digit* '.' Digit+`. -/
def parseMantissa (l : List Char) : Option ℚ :=
  match splitAtFirst (· == '.') l with
  | (a, none) =>
    if !a.isEmpty && a.all Char.isDigit then some (digitsVal a) else none
  | (a, some b) =>
    if (!a.isEmpty || !b.isEmpty) && a.all Char.isDigit &&
        b.all Char.isDigit then
      some (digitsVal a + digitsVal b / (10 : ℚ) ^ b.length)
    else none

/-- A Rust float literal without sign or keyword: mantissa and optional
exponent `('e'|'E') sign? Digit+`. -/
def parseNumber (l : List Char) : Option ℚ :=
  match splitAtFirst (fun c => c == 'e' || c == 'E') l with
  | (m, none) => parseMantissa m
  | (m, some e) =>
    match parseMantissa m with
    | none => none
    | some q =>
      let se := stripSign e
      if !se.2.isEmpty && se.2.all Char.isDigit then
        some (q * (10 : ℚ) ^
          (if se.1 then -((digitsValN se.2 : ℕ) : ℤ) else ((digitsValN se.2 : ℕ) : ℤ)))
      else none

/-- Rust `f32::from_str`, modelled per its documented grammar: optional
sign, then (case-insensitively) `inf`, `infinity`, `nan`, or a decimal
number with optional exponent. -/
def parseF32 (l : List Char) : Option FVal :=
  let sn := stripSign l
  let low := sn.2.map Char.toLower
  if low = "inf".data ∨ low = "infinity".data then some (FVal.inf sn.1)
  else if low = "nan".data then some FVal.nan
  else
    match parseNumber sn.2 with
    | some q => some (FVal.finite (if sn.1 then -q else q))
    | none => none

/-- The componentwise result of `Vec3::from_str`, keeping exact parsed
component values. -/
structure Vec3Lit where
  x : FVal
  y : FVal
  z : FVal
deriving DecidableEq

/-- `impl FromStr for Vec3` from `src/vec.rs`: split the input on `','`; if
exactly three parts result, parse each as an `f32` (a failing component maps
to `InvalidComponent` through the `?` conversion), otherwise return
`WrongNumberOfComponents`. -/
def Vec3.from_str (s : String) : Except ParseVecError Vec3Lit :=
  match splitComma s.data with
  | [p0, p1, p2] =>
    match parseF32 p0, parseF32 p1, parseF32 p2 with
    | some a, some b, some c => Except.ok ⟨a, b, c⟩
    | _, _, _ => Except.error ParseVecError.InvalidComponent
  | _ => Except.error ParseVecError.WrongNumberOfComponents

/-- **C10.** `Vec3::from_str` fails with `WrongNumberOfComponents` iff the
split on `','` does not yield exactly three parts; with exactly three parts
it fails with `InvalidComponent` iff some part does not parse as a float,
and otherwise succeeds with the componentwise-parsed vector. -/
theorem vec3_from_str_spec (s : String) :
    (Vec3.from_str s = Except.error ParseVecError.WrongNumberOfComponents ↔
      (splitComma s.data).length ≠ 3) ∧
    ∀ p0 p1 p2, splitComma s.data = [p0, p1, p2] →
      (Vec3.from_str s = Except.error ParseVecError.InvalidComponent ↔
        parseF32 p0 = none ∨ parseF32 p1 = none ∨ parseF32 p2 = none) ∧
      ∀ a b c, parseF32 p0 = some a → parseF32 p1 = some b →
        parseF32 p2 = some c →
        Vec3.from_str s = Except.ok ⟨a, b, c⟩ := by
  rcases hl : splitComma s.data with _ | ⟨p0, _ | ⟨p1, _ | ⟨p2, _ | ⟨p3, rest⟩⟩⟩⟩
  · exact ⟨by rw [Vec3.from_str, hl]; simp,
      fun _ _ _ habs => by simp [hl] at habs⟩
  · exact ⟨by rw [Vec3.from_str, hl]; simp,
      fun _ _ _ habs => by simp [hl] at habs⟩
  · exact ⟨by rw [Vec3.from_str, hl]; simp,
      fun _ _ _ habs => by simp [hl] at habs⟩
  · constructor
    · rw [Vec3.from_str, hl]
      rcases h0 : parseF32 p0 with _ | a <;>
        rcases h1 : parseF32 p1 with _ | b <;>
          rcases h2 : parseF32 p2 with _ | c <;> simp [h0, h1, h2]
    · intro q0 q1 q2 heq
      injection heq with e0 heq
      injection heq with e1 heq
      injection heq with e2 _
      subst e0
      subst e1
      subst e2
      constructor
      · rw [Vec3.from_str, hl]
        rcases h0 : parseF32 p0 with _ | a <;>
          rcases h1 : parseF32 p1 with _ | b <;>
            rcases h2 : parseF32 p2 with _ | c <;> simp [h0, h1, h2]
      · intro a b c h0 h1 h2
        rw [Vec3.from_str, hl]
        simp [h0, h1, h2]
  · exact ⟨by rw [Vec3.from_str, hl]; simp,
      fun _ _ _ habs => by simp [hl] at habs⟩

/-- Witness for C10 at the spec's example inputs: a two-component string
gives `WrongNumberOfComponents`, a three-component string of non-numbers
gives `InvalidComponent`. -/
theorem vec3_from_str_spec_witness :
    Vec3.from_str "1,2" = Except.error ParseVecError.WrongNumberOfComponents ∧
    Vec3.from_str "a,b,c" = Except.error ParseVecError.InvalidComponent :=
  ⟨(vec3_from_str_spec "1,2").1.mpr (by decide),
    (((vec3_from_str_spec "a,b,c").2 ['a'] ['b'] ['c'] (by decide)).1).mpr
      (Or.inl (by decide))⟩
